import Mathlib

/-!
Verification of the EZVals case-expansion/merge engine (`ezvals/cases.py`)
and the run-name resolver of the CLI driver, against the repository's
specification.  Python values are embedded as the inductive `Value`,
Python dicts as key-ordered association lists with (by construction)
unique keys, and fallible code as `Except String`.
-/

/-- Embedding of the Python values that flow through `ezvals/cases.py`:
`None`, booleans, integers, strings, lists and string-keyed dicts. -/
inductive Value where
  | none : Value
  | bool : Bool → Value
  | int : Int → Value
  | str : String → Value
  | list : List Value → Value
  | dict : List (String × Value) → Value
deriving Repr

/-- A Python dict, embedded as an insertion-ordered association list.
Dicts built by Python literals or `dict(...)` have unique keys; the
operations below use first-match lookup, which agrees with that. -/
abbrev PyDict := List (String × Value)

mutual
/-- Python `==` on embedded values (structural; dict equality is modelled
order-sensitively, which agrees with Python on the unique-key, same-order
dicts produced by this code path). -/
def Value.beq : Value → Value → Bool
  | Value.none, Value.none => true
  | Value.bool a, Value.bool b => a == b
  | Value.int a, Value.int b => a == b
  | Value.str a, Value.str b => a == b
  | Value.list a, Value.list b => Value.beqList a b
  | Value.dict a, Value.dict b => Value.beqDict a b
  | _, _ => false
/-- Elementwise `==` on Python lists. -/
def Value.beqList : List Value → List Value → Bool
  | [], [] => true
  | a :: as, b :: bs => Value.beq a b && Value.beqList as bs
  | _, _ => false
/-- Pairwise `==` on dict entries. -/
def Value.beqDict : List (String × Value) → List (String × Value) → Bool
  | [], [] => true
  | (k, v) :: as, (k2, v2) :: bs => k == k2 && Value.beq v v2 && Value.beqDict as bs
  | _, _ => false
end

instance : BEq Value := ⟨Value.beq⟩

/-- `d.get(k)` returning an `Option` to distinguish key absence. -/
def dictGet? (d : PyDict) (k : String) : Option Value :=
  match d with
  | [] => Option.none
  | p :: ps => if p.1 = k then Option.some p.2 else dictGet? ps k

/-- Python `k in d`. -/
def dictContains (d : PyDict) (k : String) : Bool := (dictGet? d k).isSome

/-- Python `d.get(k)` (default `None`). -/
def dictGet (d : PyDict) (k : String) : Value := (dictGet? d k).getD Value.none

/-- Removal of a key, as done by `d.pop(k, None)` on the dict that holds it. -/
def dictRemove (d : PyDict) (k : String) : PyDict := d.filter (fun p => p.1 ≠ k)

/-- The keys of a dict, in insertion order. -/
def dictKeys (d : PyDict) : List String := d.map Prod.fst

/-- Python `d[k] = v`: replace in place when the key exists, else append. -/
def dictSet (d : PyDict) (k : String) (v : Value) : PyDict :=
  if dictContains d k then d.map (fun p => if p.1 = k then (k, v) else p)
  else d ++ [(k, v)]

/-- Python `d.update(u)`: overlay `u`'s entries onto `d` in `u`'s order. -/
def dictUpdate (d : PyDict) (u : PyDict) : PyDict :=
  u.foldl (fun acc p => dictSet acc p.1 p.2) d

mutual
/-- Python `repr` of an embedded value (string escaping not modelled; the
ids exercised by this code are scalars). -/
def pyRepr : Value → String
  | Value.none => "None"
  | Value.bool b => if b then "True" else "False"
  | Value.int n => toString n
  | Value.str s => "\x27" ++ s ++ "\x27"
  | Value.list l => "[" ++ pyReprList l ++ "]"
  | Value.dict d => "\x7b" ++ pyReprDict d ++ "\x7d"
/-- Comma-joined `repr` of list elements. -/
def pyReprList : List Value → String
  | [] => ""
  | [x] => pyRepr x
  | x :: y :: xs => pyRepr x ++ ", " ++ pyReprList (y :: xs)
/-- Comma-joined `repr` of dict entries. -/
def pyReprDict : List (String × Value) → String
  | [] => ""
  | [(k, v)] => "\x27" ++ k ++ "\x27: " ++ pyRepr v
  | (k, v) :: y :: xs => "\x27" ++ k ++ "\x27: " ++ pyRepr v ++ ", " ++ pyReprDict (y :: xs)
end

/-- Python `str(...)` as used by `normalize_cases` to stringify case ids. -/
def pyStr : Value → String
  | Value.str s => s
  | v => pyRepr v

/-- Code-point comparison of char lists, the order `sorted` uses on strings. -/
def charsLe : List Char → List Char → Bool
  | [], _ => true
  | _ :: _, [] => false
  | c :: cs, d :: ds =>
    if c.toNat < d.toNat then true
    else if d.toNat < c.toNat then false
    else charsLe cs ds

/-- Python string `<=` (code-point lexicographic). -/
def strLe (a b : String) : Bool := charsLe a.data b.data

/-- Insertion step of a stable insertion sort by `strLe`. -/
def insertSorted (x : String) : List String → List String
  | [] => [x]
  | y :: ys => if strLe x y then x :: y :: ys else y :: insertSorted x ys

/-- Python `sorted` on a list of strings. -/
def sortStrings (l : List String) : List String := l.foldr insertSorted []

/-- `CaseBlock` of `ezvals/cases.py`: the normalized case table. -/
structure CaseBlock where
  case_sets : List PyDict
  case_ids : List (Option String)
deriving Repr

/-- `RESERVED_CASE_KEYS` of `ezvals/cases.py` (a set; only membership is used). -/
def RESERVED_CASE_KEYS : List String :=
  ["input", "reference", "metadata", "dataset", "labels",
   "default_score_key", "timeout", "target", "evaluators"]

/-- The unknown keys of one case after the optional `id` was popped:
`set(case_dict.keys()) - RESERVED_CASE_KEYS`, as an ordered list of the
distinct offenders. -/
def unknown_keys (case_dict : PyDict) : List String :=
  ((dictKeys case_dict).filter (fun k => ¬ RESERVED_CASE_KEYS.contains k)).dedup

/-- One iteration of the `for idx, case in enumerate(cases)` loop of
`normalize_cases`, together with the post-state of the caller's element:
the source copies the element (`case_dict = dict(case)`) and pops `id`
from the copy only, so the element itself is handed back unchanged. -/
def normalizeElemTr (idx : Nat) (case : Value) :
    Except String (PyDict × Option String) × Value :=
  match case with
  | Value.dict d =>
    let case_dict : PyDict := d
    let case_id := dictGet? case_dict "id"
    let case_dict := dictRemove case_dict "id"
    let cid : Option String :=
      match case_id with
      | Option.none => Option.none
      | Option.some Value.none => Option.none
      | Option.some v => Option.some (pyStr v)
    let unknown := unknown_keys case_dict
    (if unknown.isEmpty then Except.ok (case_dict, cid)
     else Except.error ("Unknown case keys: " ++ String.intercalate ", " (sortStrings unknown)),
     Value.dict d)
  | other => (Except.error ("Case " ++ toString idx ++ " must be a dict"), other)

/-- The element loop of `normalize_cases`, threading the post-state of the
caller's list (elements past a raised error are untouched). -/
def normalize_go (idx : Nat) :
    List Value → Except String (List PyDict × List (Option String)) × List Value
  | [] => (Except.ok ([], []), [])
  | c :: cs =>
    let (r, c') := normalizeElemTr idx c
    match r with
    | Except.error e => (Except.error e, c' :: cs)
    | Except.ok (d, cid) =>
      let (rs, cs') := normalize_go (idx + 1) cs
      (match rs with
       | Except.error e => Except.error e
       | Except.ok (ds, ids) => Except.ok (d :: ds, cid :: ids),
       c' :: cs')

/-- `normalize_cases` of `ezvals/cases.py`, paired with the post-state of
the caller's argument (for the frame property). -/
def normalize_cases (cases : Value) : Except String (Option CaseBlock) × Value :=
  match cases with
  | Value.none => (Except.ok Option.none, Value.none)
  | Value.list l =>
    let (r, l') := normalize_go 0 l
    (match r with
     | Except.error e => Except.error e
     | Except.ok (ds, ids) => Except.ok (Option.some ⟨ds, ids⟩),
     Value.list l')
  | other => (Except.error "cases must be a list of dicts", other)

/-- The settings object attached by the `@eval` decorator (the decoration
boundary of the spec).  Modelled from the spec: the `EvalFunction` class
lives in `ezvals/decorators.py`, which is not under `src/`; the spec's
decoration boundary exposes exactly these fields.  `labels` may be `None`
or a list; `input`, `reference`, `default_score_key` and `metadata` model
`context_kwargs.get(...)` (absent and `None` coincide there); the
`_provided_labels` / `_provided_evaluators` provenance attributes are
`None` (also when absent, per `getattr(..., None)`) or a value. -/
structure EvalSettings where
  dataset : Value
  labels : Option (List Value)
  evaluators : Value
  target : Value
  timeout : Value
  context_param : Option String
  input : Value
  reference : Value
  default_score_key : Value
  metadata : Option PyDict
  provided_labels : Option Value
  provided_evaluators : Option Value
deriving Repr

/-- One merged evaluation unit, as built by `generate_eval_functions`.
Modelled from the spec where the constructor is concerned: `EvalFunction`
(`ezvals/decorators.py`, not under `src/`) stores the resolved fields as
given; its synthesized callable is represented by its assigned display
name and calling convention.  A freshly constructed instance carries no
provenance flags (`Option.none`) until `generate_eval_functions` sets
them. -/
structure EvalFunction where
  func_name : String
  has_context : Bool
  is_async : Bool
  dataset : Value
  labels : List Value
  evaluators : Value
  target : Value
  input : Value
  reference : Value
  default_score_key : Value
  metadata : Option PyDict
  timeout : Value
  provided_labels : Option Value
  provided_evaluators : Option Value
deriving Repr

/-- A base Python function object: its `__name__`, the optional
`__case_sets__`/`__case_ids__` attributes stitched on by `apply_cases`
(bundled, since they are always set together), whether a parameter is
annotated with `EvalContext`, and whether it is a coroutine function. -/
structure PyFunc where
  name : String
  cases : Option CaseBlock
  context_by_signature : Bool
  is_async : Bool
deriving Repr

/-- The argument of `generate_eval_functions`: either a plain function or
an `EvalFunction` wrapper around one (`wrapper_cases` models
`__case_sets__` set on the wrapper object itself). -/
inductive FuncArg where
  | plain (f : PyFunc)
  | eval (settings : EvalSettings) (f : PyFunc) (wrapper_cases : Option CaseBlock)
deriving Repr

/-- `_merge_metadata` of `ezvals/cases.py`. -/
def _merge_metadata (base override : Option PyDict) : Option PyDict :=
  match override with
  | Option.none => Option.none
  | Option.some ov =>
    let merged : PyDict := []
    let merged := match base with
      | Option.some b => if b.isEmpty then merged else dictUpdate merged b
      | Option.none => merged
    let merged := if ov.isEmpty then merged else dictUpdate merged ov
    if merged.isEmpty then Option.none else Option.some merged

/-- `_merge_labels` of `ezvals/cases.py`. -/
def _merge_labels (base : List Value) (override : Option (List Value)) : List Value :=
  match override with
  | Option.none => []
  | Option.some ov => base ++ ov.filter (fun l => ¬ base.contains l)

/-- Python `list(v)` for the values this code iterates (a list copies, a
string yields its characters, a dict its keys; any other value raises a
`TypeError` in Python and is outside the modelled domain). -/
def asList : Value → List Value
  | Value.list l => l
  | Value.str s => s.data.map (fun c => Value.str (String.singleton c))
  | Value.dict d => (dictKeys d).map Value.str
  | _ => []

/-- View of a metadata override value as dict-or-`None`; a non-dict,
non-`None` value makes Python's `dict.update` raise and is outside the
modelled domain. -/
def asDictOpt : Value → Option PyDict
  | Value.dict d => Option.some d
  | _ => Option.none

/-- `case_ids[idx] if case_ids and idx < len(case_ids) else None`. -/
def test_id_at (case_ids : List (Option String)) (idx : Nat) : Option String :=
  if case_ids.isEmpty then Option.none
  else match case_ids.get? idx with
    | Option.some t => t
    | Option.none => Option.none

/-- The display name `f"{base_func.__name__}[{test_id or idx}]"`; a `None`
or empty-string `test_id` is falsy, so the zero-based index is used. -/
def case_func_name (baseName : String) (test_id : Option String) (idx : Nat) : String :=
  baseName ++ "[" ++
    (match test_id with
     | Option.some s => if s = "" then toString idx else s
     | Option.none => toString idx) ++ "]"

/-- The body of the `for idx, case in enumerate(case_sets)` loop of
`generate_eval_functions`: merge the base settings with one case's
overrides and build the per-case `EvalFunction`. -/
def mergeCase (settings : Option EvalSettings) (baseName : String)
    (has_context is_async : Bool) (case_ids : List (Option String))
    (idx : Nat) (case : PyDict) : EvalFunction :=
  let test_id := test_id_at case_ids idx
  let func_name := case_func_name baseName test_id idx
  let base_dataset := match settings with
    | Option.some s => s.dataset
    | Option.none => Value.none
  let base_labels : List Value := match settings with
    | Option.some s => s.labels.getD []
    | Option.none => []
  let base_target := match settings with
    | Option.some s => s.target
    | Option.none => Value.none
  let base_evaluators := match settings with
    | Option.some s => s.evaluators
    | Option.none => Value.none
  let base_timeout := match settings with
    | Option.some s => s.timeout
    | Option.none => Value.none
  let base_input := match settings with
    | Option.some s => s.input
    | Option.none => Value.none
  let base_reference := match settings with
    | Option.some s => s.reference
    | Option.none => Value.none
  let base_default_score_key := match settings with
    | Option.some s => s.default_score_key
    | Option.none => Value.none
  let base_metadata : Option PyDict := match settings with
    | Option.some s => s.metadata
    | Option.none => Option.none
  let dataset := if dictContains case "dataset" then dictGet case "dataset" else base_dataset
  let labels : List Value :=
    if dictContains case "labels" then
      match dictGet case "labels" with
      | Value.none => []
      | Value.list [] => []
      | v => _merge_labels base_labels (Option.some (asList v))
    else base_labels
  let metadata : Option PyDict :=
    if dictContains case "metadata" then
      _merge_metadata base_metadata (asDictOpt (dictGet case "metadata"))
    else base_metadata
  let input_value := if dictContains case "input" then dictGet case "input" else base_input
  let reference_value := if dictContains case "reference" then dictGet case "reference" else base_reference
  let default_score_key := if dictContains case "default_score_key" then dictGet case "default_score_key" else base_default_score_key
  let timeout := if dictContains case "timeout" then dictGet case "timeout" else base_timeout
  let target := if dictContains case "target" then dictGet case "target" else base_target
  let evaluators :=
    if dictContains case "evaluators" then
      match dictGet case "evaluators" with
      | Value.none => Value.list []
      | v => v
    else base_evaluators
  let provided_labels : Option Value :=
    if dictContains case "labels" then Option.some (Value.list [])
    else match settings with
      | Option.some s => s.provided_labels
      | Option.none => Option.none
  let provided_evaluators : Option Value :=
    if dictContains case "evaluators" then Option.some (Value.list [])
    else match settings with
      | Option.some s => s.provided_evaluators
      | Option.none => Option.none
  { func_name := func_name
    has_context := has_context
    is_async := is_async
    dataset := dataset
    labels := labels
    evaluators := evaluators
    target := target
    input := input_value
    reference := reference_value
    default_score_key := default_score_key
    metadata := metadata
    timeout := timeout
    provided_labels := provided_labels
    provided_evaluators := provided_evaluators }

/-- `enumerate`-style map, mirroring the loop that appends one unit per
case in table order. -/
def mapIdx (f : Nat → PyDict → EvalFunction) : Nat → List PyDict → List EvalFunction
  | _, [] => []
  | i, c :: cs => f i c :: mapIdx f (i + 1) cs

/-- The expansion-marker lookup of `generate_eval_functions`:
`__case_sets__` on the base function first, else on the wrapper. -/
def lookup_case_block (arg : FuncArg) : Option CaseBlock :=
  match arg with
  | FuncArg.plain f => f.cases
  | FuncArg.eval _ f w =>
    match f.cases with
    | Option.some b => Option.some b
    | Option.none => w

/-- The base function object of the argument. -/
def base_func_of (arg : FuncArg) : PyFunc :=
  match arg with
  | FuncArg.plain f => f
  | FuncArg.eval _ f _ => f

/-- The settings of the argument, when it is an `EvalFunction`. -/
def settings_of (arg : FuncArg) : Option EvalSettings :=
  match arg with
  | FuncArg.plain _ => Option.none
  | FuncArg.eval s _ _ => Option.some s

/-- `generate_eval_functions` of `ezvals/cases.py`. -/
def generate_eval_functions (arg : FuncArg) : Except String (List EvalFunction) :=
  let base_func := base_func_of arg
  match lookup_case_block arg with
  | Option.none =>
    Except.error ("Function " ++ base_func.name ++ " does not have __case_sets__ attribute")
  | Option.some block =>
    let has_context := match settings_of arg with
      | Option.some s => s.context_param.isSome
      | Option.none => base_func.context_by_signature
    let is_async := base_func.is_async
    Except.ok (mapIdx
      (fun idx case =>
        mergeCase (settings_of arg) base_func.name has_context is_async block.case_ids idx case)
      0 block.case_sets)

/-- `apply_cases` of `ezvals/cases.py`: normalize and stitch the case
attributes onto the function (unchanged when `cases` is `None`). -/
def apply_cases (f : PyFunc) (cases : Value) : Except String PyFunc :=
  match (normalize_cases cases).1 with
  | Except.error e => Except.error e
  | Except.ok Option.none => Except.ok f
  | Except.ok (Option.some block) => Except.ok { f with cases := Option.some block }

/-- The CaseExpander pipeline: decorate-time normalization (`apply_cases`)
followed by `generate_eval_functions`. -/
def expand (settings : Option EvalSettings) (f : PyFunc) (cases : Value) :
    Except String (List EvalFunction) :=
  match apply_cases f cases with
  | Except.error e => Except.error e
  | Except.ok f' =>
    generate_eval_functions (match settings with
      | Option.none => FuncArg.plain f'
      | Option.some s => FuncArg.eval s f' Option.none)

/-- RunRecord of the storage hierarchy (spec §3): `run_id` is the unique
leaf key, `run_name` the human label that need not be unique. -/
structure RunRecord where
  run_id : String
  session_name : String
  run_name : String
deriving Repr, DecidableEq

/-- Failure modes of run-name resolution (spec §7). -/
inductive ResolveError where
  | notFound (session : String) (run : String) : ResolveError
  | ambiguousName (session : String) (run : String) : ResolveError
deriving Repr, DecidableEq

/-- Modelled from the spec: `_resolve_run_name_in_session` lives in
`ezvals/cli.py`, which is not under `src/` (only its tests are).  Spec
§4.6: scan the session's records for an exact `run_name` match; zero
matches is `None` or `NotFoundError` depending on `required`; one match
is returned; two or more fail with `AmbiguousNameError` regardless of
`required`. -/
def resolve_run_name (store : List RunRecord) (session run : String) (required : Bool) :
    Except ResolveError (Option RunRecord) :=
  let found := store.filter (fun rec => rec.session_name = session && rec.run_name = run)
  match found with
  | [] =>
    if required then Except.error (ResolveError.notFound session run)
    else Except.ok Option.none
  | [r] => Except.ok (Option.some r)
  | _ => Except.error (ResolveError.ambiguousName session run)

/-!  Basic facts about the dict embedding. -/

theorem dictGet?_eq_none_iff (d : PyDict) (k : String) :
    dictGet? d k = Option.none ↔ k ∉ dictKeys d := by
  induction d with
  | nil => simp [dictGet?, dictKeys]
  | cons p ps ih =>
    by_cases h : p.1 = k
    · simp [dictGet?, dictKeys, h]
    · have h' : ¬ k = p.1 := fun e => h e.symm
      simp [dictGet?, dictKeys, h, h', ih]

theorem dictContains_eq_false_iff (d : PyDict) (k : String) :
    dictContains d k = false ↔ k ∉ dictKeys d := by
  rw [← dictGet?_eq_none_iff]
  unfold dictContains
  cases dictGet? d k <;> simp

theorem dictContains_of_get?_some {d : PyDict} {k : String} {v : Value}
    (h : dictGet? d k = Option.some v) : dictContains d k = true := by
  unfold dictContains; rw [h]; rfl

theorem dictGet_of_get?_some {d : PyDict} {k : String} {v : Value}
    (h : dictGet? d k = Option.some v) : dictGet d k = v := by
  unfold dictGet; rw [h]; rfl

theorem dictSet_of_not_contains {d : PyDict} {k : String} (v : Value)
    (h : dictContains d k = false) : dictSet d k v = d ++ [(k, v)] := by
  unfold dictSet; rw [h]; simp

theorem dictUpdate_nil_right (d : PyDict) : dictUpdate d [] = d := rfl

theorem dictUpdate_eq_append (u : PyDict) :
    ∀ acc : PyDict, (dictKeys acc ++ dictKeys u).Nodup → dictUpdate acc u = acc ++ u := by
  induction u with
  | nil => intro acc _; simp [dictUpdate_nil_right]
  | cons p u ih =>
    intro acc hnd
    have hk : p.1 ∉ dictKeys acc := by
      intro hmem
      have : List.Disjoint (dictKeys acc) (dictKeys (p :: u)) :=
        (List.nodup_append.mp hnd).2.2
      exact this hmem (by simp [dictKeys])
    have hset : dictSet acc p.1 p.2 = acc ++ [p] := by
      have := dictSet_of_not_contains (d := acc) (k := p.1) p.2
        ((dictContains_eq_false_iff acc p.1).mpr hk)
      simpa using this
    have hstep : dictUpdate acc (p :: u) = dictUpdate (acc ++ [p]) u := by
      unfold dictUpdate
      simp [hset]
    rw [hstep, ih (acc ++ [p]) ?_]
    · simp
    · have : dictKeys (acc ++ [p]) ++ dictKeys u = dictKeys acc ++ dictKeys (p :: u) := by
        simp [dictKeys]
      rw [this]; exact hnd

theorem dictUpdate_nil_left_of_nodup {b : PyDict} (h : (dictKeys b).Nodup) :
    dictUpdate [] b = b := by
  have := dictUpdate_eq_append b [] (by simpa [dictKeys] using h)
  simpa using this

theorem ite_isEmpty_update (m d : PyDict) :
    (if d.isEmpty then m else dictUpdate m d) = dictUpdate m d := by
  cases d <;> simp [dictUpdate_nil_right]

theorem ite_isEmpty_base {b : PyDict} (h : (dictKeys b).Nodup) :
    (if b.isEmpty then ([] : PyDict) else dictUpdate [] b) = b := by
  cases b with
  | nil => simp
  | cons p ps => simp [dictUpdate_nil_left_of_nodup h]

/-- Under unique keys of the base, `_merge_metadata` with a dict override
is the shallow overlay, with an empty result collapsed to `None`. -/
theorem merge_metadata_some {base : Option PyDict} {d : PyDict}
    (hnd : (dictKeys (base.getD [])).Nodup) :
    _merge_metadata base (Option.some d) =
      (if (dictUpdate (base.getD []) d).isEmpty then Option.none
       else Option.some (dictUpdate (base.getD []) d)) := by
  cases base with
  | none =>
    show (let merged : PyDict := []
          let merged := if d.isEmpty then merged else dictUpdate merged d
          if merged.isEmpty then Option.none else Option.some merged) = _
    simp only [ite_isEmpty_update, Option.getD]
  | some b =>
    show (let merged : PyDict := []
          let merged := if b.isEmpty then merged else dictUpdate merged b
          let merged := if d.isEmpty then merged else dictUpdate merged d
          if merged.isEmpty then Option.none else Option.some merged) = _
    simp only [ite_isEmpty_base (by simpa using hnd), ite_isEmpty_update, Option.getD]

/-- Sample base settings used to instantiate the merger theorems. -/
def sampleSettings : EvalSettings :=
  { dataset := Value.str "qa"
    labels := Option.some [Value.str "a", Value.str "b"]
    evaluators := Value.list [Value.str "ev"]
    target := Value.str "t"
    timeout := Value.int 30
    context_param := Option.none
    input := Value.str "x"
    reference := Value.none
    default_score_key := Value.str "score"
    metadata := Option.some [("j", Value.int 0)]
    provided_labels := Option.some (Value.list [Value.str "a", Value.str "b"])
    provided_evaluators := Option.none }

/-- Claim C4: for dataset, target, input, reference, default_score_key and
timeout, an absent key inherits the base value unchanged and a present key
replaces it with exactly the override value, `None` included — presence of
the key, not its value, decides. -/
theorem claim_C4_scalar_fields (s : EvalSettings) (bn : String) (hc ia : Bool)
    (ids : List (Option String)) (idx : Nat) (case : PyDict)
    (u : EvalFunction) (hu : u = mergeCase (Option.some s) bn hc ia ids idx case) :
    ((dictContains case "dataset" = false → u.dataset = s.dataset) ∧
      ∀ v, dictGet? case "dataset" = Option.some v → u.dataset = v) ∧
    ((dictContains case "target" = false → u.target = s.target) ∧
      ∀ v, dictGet? case "target" = Option.some v → u.target = v) ∧
    ((dictContains case "input" = false → u.input = s.input) ∧
      ∀ v, dictGet? case "input" = Option.some v → u.input = v) ∧
    ((dictContains case "reference" = false → u.reference = s.reference) ∧
      ∀ v, dictGet? case "reference" = Option.some v → u.reference = v) ∧
    ((dictContains case "default_score_key" = false → u.default_score_key = s.default_score_key) ∧
      ∀ v, dictGet? case "default_score_key" = Option.some v → u.default_score_key = v) ∧
    ((dictContains case "timeout" = false → u.timeout = s.timeout) ∧
      ∀ v, dictGet? case "timeout" = Option.some v → u.timeout = v) := by
  subst hu
  refine ⟨⟨?_, ?_⟩, ⟨?_, ?_⟩, ⟨?_, ?_⟩, ⟨?_, ?_⟩, ⟨?_, ?_⟩, ⟨?_, ?_⟩⟩ <;>
    first
      | (intro h; simp [mergeCase, h])
      | (intro v hv;
         simp [mergeCase, dictContains_of_get?_some hv, dictGet_of_get?_some hv])

/-- Claim C4, instantiated: a present `dataset: None` overrides the base
dataset to `None`, a present `input` replaces it, and an absent `timeout`
inherits the base's 30. -/
theorem claim_C4_scalar_fields_witness :
    (mergeCase (Option.some sampleSettings) "f" false false [] 0
        [("dataset", Value.none), ("input", Value.str "y")]).dataset = Value.none ∧
    (mergeCase (Option.some sampleSettings) "f" false false [] 0
        [("dataset", Value.none), ("input", Value.str "y")]).input = Value.str "y" ∧
    (mergeCase (Option.some sampleSettings) "f" false false [] 0
        [("dataset", Value.none), ("input", Value.str "y")]).timeout = Value.int 30 := by
  have h := claim_C4_scalar_fields sampleSettings "f" false false [] 0
    [("dataset", Value.none), ("input", Value.str "y")] _ rfl
  exact ⟨h.1.2 Value.none rfl, h.2.2.1.2 (Value.str "y") rfl, h.2.2.2.2.2.1 rfl⟩

/-- Claim C7: the base specification's provenance flags are propagated
unchanged onto the merged unit, except that a case override of
`labels`/`evaluators` resets the corresponding flag to the explicitly
empty list. -/
theorem claim_C7_provenance_flags (s : EvalSettings) (bn : String) (hc ia : Bool)
    (ids : List (Option String)) (idx : Nat) (case : PyDict)
    (u : EvalFunction) (hu : u = mergeCase (Option.some s) bn hc ia ids idx case) :
    (dictContains case "labels" = false → u.provided_labels = s.provided_labels) ∧
    (dictContains case "labels" = true → u.provided_labels = Option.some (Value.list [])) ∧
    (dictContains case "evaluators" = false → u.provided_evaluators = s.provided_evaluators) ∧
    (dictContains case "evaluators" = true →
      u.provided_evaluators = Option.some (Value.list [])) := by
  subst hu
  refine ⟨?_, ?_, ?_, ?_⟩ <;> (intro h; simp [mergeCase, h])

/-- Claim C7, instantiated: a case that overrides `labels` but not
`evaluators` gets its labels flag reset to the empty list and its
evaluators flag inherited from the base. -/
theorem claim_C7_provenance_flags_witness :
    (mergeCase (Option.some sampleSettings) "f" false false [] 0
        [("labels", Value.none)]).provided_labels = Option.some (Value.list []) ∧
    (mergeCase (Option.some sampleSettings) "f" false false [] 0
        [("labels", Value.none)]).provided_evaluators = sampleSettings.provided_evaluators := by
  have h := claim_C7_provenance_flags sampleSettings "f" false false [] 0
    [("labels", Value.none)] _ rfl
  exact ⟨h.2.1 rfl, h.2.2.1 rfl⟩

/-- Claim C2: a `labels` override of `None` or `[]` clears the labels; any
other list override yields the base labels followed by the override labels
not already present (dedup by equality, base order first, then override
order); an absent key inherits the base labels. -/
theorem claim_C2_labels_merge (s : EvalSettings) (bn : String) (hc ia : Bool)
    (ids : List (Option String)) (idx : Nat) (case : PyDict)
    (u : EvalFunction) (hu : u = mergeCase (Option.some s) bn hc ia ids idx case) :
    (dictContains case "labels" = false → u.labels = s.labels.getD []) ∧
    (dictGet? case "labels" = Option.some Value.none → u.labels = []) ∧
    (dictGet? case "labels" = Option.some (Value.list []) → u.labels = []) ∧
    (∀ ls, dictGet? case "labels" = Option.some (Value.list ls) → ls ≠ [] →
      u.labels = s.labels.getD [] ++
        ls.filter (fun l => ¬ (s.labels.getD []).contains l)) := by
  subst hu
  refine ⟨?_, ?_, ?_, ?_⟩
  · intro h; simp [mergeCase, h]
  · intro h; simp [mergeCase, dictContains_of_get?_some h, dictGet_of_get?_some h]
  · intro h; simp [mergeCase, dictContains_of_get?_some h, dictGet_of_get?_some h]
  · intro ls hls hne
    cases ls with
    | nil => exact absurd rfl hne
    | cons x xs =>
      simp [mergeCase, dictContains_of_get?_some hls, dictGet_of_get?_some hls,
        _merge_labels, asList]

/-- Claim C2, instantiated with the spec's own example: base labels
`["a","b"]` with override `["a","y"]` yield `["a","b","y"]`. -/
theorem claim_C2_labels_merge_witness :
    (mergeCase (Option.some sampleSettings) "f" false false [] 0
        [("labels", Value.list [Value.str "a", Value.str "y"])]).labels =
      [Value.str "a", Value.str "b", Value.str "y"] := by
  have h := (claim_C2_labels_merge sampleSettings "f" false false [] 0
    [("labels", Value.list [Value.str "a", Value.str "y"])] _ rfl).2.2.2
    [Value.str "a", Value.str "y"] rfl (by simp)
  rw [h]
  rfl

/-- Sample base settings without base metadata. -/
def sampleSettingsNoMeta : EvalSettings :=
  { sampleSettings with metadata := Option.none }

/-- The metadata merge exactly as claim C3 words it: `None` override gives
`None`; otherwise the result is the shallow merge of the base mapping (or
empty) with the override overlaid — with no empty-to-`None` collapse. -/
def metadata_merge_claimed (base override : Option PyDict) : Option PyDict :=
  match override with
  | Option.none => Option.none
  | Option.some d => Option.some (dictUpdate (base.getD []) d)

/-- Claim C3 as stated is false: with no base metadata and the override
`metadata={}` the code yields `None`, while the claim's shallow merge
yields the empty mapping. -/
theorem claim_C3_counterexample :
    (mergeCase (Option.some sampleSettingsNoMeta) "f" false false [] 0
        [("metadata", Value.dict [])]).metadata = Option.none ∧
    metadata_merge_claimed sampleSettingsNoMeta.metadata (Option.some []) =
      Option.some [] ∧
    (Option.none : Option PyDict) ≠ Option.some [] :=
  ⟨rfl, rfl, by simp⟩

/-- Claim C3 (amended): an absent `metadata` key inherits the base
metadata; an override of `None` gives `None` regardless of base; a dict
override gives the shallow merge of the base mapping (or empty) with the
override overlaid — except that an empty merge result is represented as
`None`, never as an empty mapping. -/
theorem claim_C3_metadata_merge (s : EvalSettings) (bn : String) (hc ia : Bool)
    (ids : List (Option String)) (idx : Nat) (case : PyDict)
    (u : EvalFunction) (hu : u = mergeCase (Option.some s) bn hc ia ids idx case)
    (hnd : (dictKeys (s.metadata.getD [])).Nodup) :
    (dictContains case "metadata" = false → u.metadata = s.metadata) ∧
    (dictGet? case "metadata" = Option.some Value.none → u.metadata = Option.none) ∧
    (∀ d, dictGet? case "metadata" = Option.some (Value.dict d) →
      u.metadata = (if (dictUpdate (s.metadata.getD []) d).isEmpty then Option.none
                    else Option.some (dictUpdate (s.metadata.getD []) d))) := by
  subst hu
  refine ⟨?_, ?_, ?_⟩
  · intro h; simp [mergeCase, h]
  · intro h
    simp [mergeCase, dictContains_of_get?_some h, dictGet_of_get?_some h,
      asDictOpt, _merge_metadata]
  · intro d h
    simp only [mergeCase, dictContains_of_get?_some h, dictGet_of_get?_some h,
      asDictOpt, if_true]
    exact merge_metadata_some hnd

/-- Claim C3 (amended), instantiated with the spec's example: base
`{"j":0}` and override `{"k":1}` merge to `{"j":0,"k":1}`. -/
theorem claim_C3_metadata_merge_witness :
    (mergeCase (Option.some sampleSettings) "f" false false [] 0
        [("metadata", Value.dict [("k", Value.int 1)])]).metadata =
      Option.some [("j", Value.int 0), ("k", Value.int 1)] := by
  have h := (claim_C3_metadata_merge sampleSettings "f" false false [] 0
    [("metadata", Value.dict [("k", Value.int 1)])] _ rfl
    (by simp [sampleSettings, dictKeys])).2.2
    [("k", Value.int 1)] rfl
  rw [h]
  rfl

/-- Claim C6 as stated is false: a case whose `id` is present but
stringifies to the empty string is named by its index (the code's
`test_id or idx` treats `""` as falsy), not by its id. -/
theorem claim_C6_counterexample :
    generate_eval_functions (FuncArg.plain
      { name := "f", cases := Option.some ⟨[[]], [Option.some ""]⟩,
        context_by_signature := false, is_async := false }) =
      Except.ok [mergeCase Option.none "f" false false [Option.some ""] 0 []] ∧
    (mergeCase Option.none "f" false false [Option.some ""] 0 []).func_name = "f[0]" ∧
    "f[0]" ≠ "f[]" :=
  ⟨rfl, rfl, by decide⟩

/-- Claim C6 (amended): the unit at zero-based position `idx` is named
`"<base-name>[<id-or-index>]"`, where the stored case id is used when it
is present and non-empty, and the position is used when the id is absent
or empty; duplicate display names never make synthesis fail — with the
marker present, generation always returns one unit per case. -/
theorem claim_C6_display_name (settings : Option EvalSettings) (bn : String)
    (hc ia : Bool) (ids : List (Option String)) (idx : Nat) (case : PyDict)
    (u : EvalFunction) (hu : u = mergeCase settings bn hc ia ids idx case) :
    (∀ s, test_id_at ids idx = Option.some s → s ≠ "" →
      u.func_name = bn ++ "[" ++ s ++ "]") ∧
    (test_id_at ids idx = Option.none → u.func_name = bn ++ "[" ++ toString idx ++ "]") ∧
    (test_id_at ids idx = Option.some "" →
      u.func_name = bn ++ "[" ++ toString idx ++ "]") ∧
    (∀ f b, f.cases = Option.some b →
      generate_eval_functions (FuncArg.plain f) =
        Except.ok (mapIdx
          (fun i c => mergeCase Option.none f.name f.context_by_signature f.is_async
            b.case_ids i c) 0 b.case_sets)) := by
  subst hu
  refine ⟨?_, ?_, ?_, ?_⟩
  · intro s hs hne
    simp [mergeCase, case_func_name, hs, hne]
  · intro h; simp [mergeCase, case_func_name, h]
  · intro h; simp [mergeCase, case_func_name, h]
  · intro f b hb
    simp [generate_eval_functions, lookup_case_block, base_func_of, settings_of, hb]

/-- Claim C6 (amended), instantiated: a non-empty id names the unit, an
absent id falls back to the position. -/
theorem claim_C6_display_name_witness :
    (mergeCase Option.none "f" false false [Option.some "a", Option.none] 0 []).func_name
      = "f[a]" ∧
    (mergeCase Option.none "f" false false [Option.some "a", Option.none] 1 []).func_name
      = "f[1]" := by
  constructor
  · have h := (claim_C6_display_name Option.none "f" false false
      [Option.some "a", Option.none] 0 [] _ rfl).1 "a" rfl (by decide)
    rw [h]; rfl
  · have h := (claim_C6_display_name Option.none "f" false false
      [Option.some "a", Option.none] 1 [] _ rfl).2.1 rfl
    rw [h]; rfl

/-- Claim C8: expansion of a function that never got the
`__case_sets__` marker fails with the caller-usage error and never
returns a (even empty) unit list. -/
theorem claim_C8_missing_marker (arg : FuncArg)
    (h : lookup_case_block arg = Option.none) :
    generate_eval_functions arg =
      Except.error ("Function " ++ (base_func_of arg).name ++
        " does not have __case_sets__ attribute") ∧
    ∀ us, generate_eval_functions arg ≠ Except.ok us := by
  have hgen : generate_eval_functions arg =
      Except.error ("Function " ++ (base_func_of arg).name ++
        " does not have __case_sets__ attribute") := by
    simp [generate_eval_functions, h]
  exact ⟨hgen, fun us hcontra => by rw [hgen] at hcontra; exact Except.noConfusion hcontra⟩

/-- Claim C8, instantiated on a bare function. -/
theorem claim_C8_missing_marker_witness :
    generate_eval_functions (FuncArg.plain
      { name := "my_eval", cases := Option.none,
        context_by_signature := false, is_async := false }) =
      Except.error ("Function " ++ "my_eval" ++ " does not have __case_sets__ attribute") :=
  (claim_C8_missing_marker (FuncArg.plain
    { name := "my_eval", cases := Option.none,
      context_by_signature := false, is_async := false }) rfl).1

/-- Claim C9: two or more stored records matching (session, run name)
make resolution fail with the ambiguity error for any value of
`required`. -/
theorem claim_C9_ambiguous_resolution (store : List RunRecord) (session run : String)
    (h : 2 ≤ (store.filter
      (fun rec => rec.session_name = session && rec.run_name = run)).length) :
    ∀ required : Bool, resolve_run_name store session run required =
      Except.error (ResolveError.ambiguousName session run) := by
  intro required
  cases hfilter : store.filter
      (fun rec => rec.session_name = session && rec.run_name = run) with
  | nil => rw [hfilter] at h; simp at h
  | cons a tail =>
    cases tail with
    | nil => rw [hfilter] at h; simp at h
    | cons b rest =>
      simp only [resolve_run_name, hfilter]

/-- Claim C9, instantiated: two runs named "baseline" in session "s1"
are ambiguous under both `required=True` and `required=False`. -/
theorem claim_C9_ambiguous_resolution_witness :
    resolve_run_name [⟨"run001", "s1", "baseline"⟩, ⟨"run002", "s1", "baseline"⟩]
        "s1" "baseline" true =
      Except.error (ResolveError.ambiguousName "s1" "baseline") ∧
    resolve_run_name [⟨"run001", "s1", "baseline"⟩, ⟨"run002", "s1", "baseline"⟩]
        "s1" "baseline" false =
      Except.error (ResolveError.ambiguousName "s1" "baseline") :=
  ⟨claim_C9_ambiguous_resolution _ _ _ (by decide) true,
   claim_C9_ambiguous_resolution _ _ _ (by decide) false⟩

theorem normalizeElemTr_post (idx : Nat) (c : Value) : (normalizeElemTr idx c).2 = c := by
  cases c <;> rfl

theorem normalize_go_post (l : List Value) : ∀ idx, (normalize_go idx l).2 = l := by
  induction l with
  | nil => intro _; rfl
  | cons c cs ih =>
    intro idx
    have hc : (normalizeElemTr idx c).2 = c := normalizeElemTr_post idx c
    rcases hE : normalizeElemTr idx c with ⟨r, c'⟩
    have hc' : c' = c := by rw [hE] at hc; exact hc
    rcases hG : normalize_go (idx + 1) cs with ⟨rs, cs'⟩
    have hcs : cs' = cs := by
      have := ih (idx + 1); rw [hG] at this; exact this
    cases r with
    | error e => simp [normalize_go, hE, hc']
    | ok p => simp [normalize_go, hE, hG, hc', hcs]

/-- Claim C10: `normalize_cases` never mutates the caller's declaration —
the argument is unchanged whether normalization returns or raises (the
`id` key is popped from an internal copy only). -/
theorem claim_C10_no_mutation (cases : Value) : (normalize_cases cases).2 = cases := by
  cases cases with
  | list l =>
    rcases hG : normalize_go 0 l with ⟨r, l'⟩
    have hl : l' = l := by
      have := normalize_go_post l 0; rw [hG] at this; exact this
    simp [normalize_cases, hG, hl]
  | none => rfl
  | bool b => rfl
  | int n => rfl
  | str s => rfl
  | dict d => rfl

theorem normalize_go_nil_fst (idx : Nat) :
    (normalize_go idx []).1 = Except.ok ([], []) := rfl

theorem normalize_go_cons_fst (idx : Nat) (c : Value) (cs : List Value) :
    (normalize_go idx (c :: cs)).1 =
      match (normalizeElemTr idx c).1 with
      | Except.error e => Except.error e
      | Except.ok (d, cid) =>
        match (normalize_go (idx + 1) cs).1 with
        | Except.error e => Except.error e
        | Except.ok (ds, ids) => Except.ok (d :: ds, cid :: ids) := by
  rcases hE : normalizeElemTr idx c with ⟨r, c'⟩
  cases r with
  | error e => simp [normalize_go, hE]
  | ok p =>
    rcases p with ⟨d, cid⟩
    rcases hG : normalize_go (idx + 1) cs with ⟨rs, cs'⟩
    cases rs <;> simp [normalize_go, hE, hG]

theorem normalizeElemTr_error_of_unknown (idx : Nat) (d : PyDict)
    (h : (unknown_keys (dictRemove d "id")).isEmpty = false) :
    (normalizeElemTr idx (Value.dict d)).1 =
      Except.error ("Unknown case keys: " ++
        String.intercalate ", " (sortStrings (unknown_keys (dictRemove d "id")))) := by
  simp [normalizeElemTr, h]

theorem normalize_go_error_of_prefix (pre : List Value) :
    ∀ (idx : Nat) (rest : List Value) (e : String),
      (∀ j c, pre.get? j = Option.some c →
        ((normalizeElemTr (idx + j) c).1).isOk = true) →
      (normalize_go (idx + pre.length) rest).1 = Except.error e →
      (normalize_go idx (pre ++ rest)).1 = Except.error e := by
  induction pre with
  | nil => intro idx rest e _ herr; simpa using herr
  | cons c cs ih =>
    intro idx rest e hok herr
    have h0 : ((normalizeElemTr idx c).1).isOk = true := by
      simpa using hok 0 c rfl
    have hok' : ∀ j c2, cs.get? j = Option.some c2 →
        ((normalizeElemTr (idx + 1 + j) c2).1).isOk = true := by
      intro j c2 hc2
      have := hok (j + 1) c2 (by simpa using hc2)
      have harith : idx + (j + 1) = idx + 1 + j := by omega
      rwa [harith] at this
    have hrec : (normalize_go (idx + 1 + cs.length) rest).1 = Except.error e := by
      have harith : idx + 1 + cs.length = idx + (c :: cs).length := by simp; omega
      rwa [harith]
    have htail := ih (idx + 1) rest e hok' hrec
    rw [List.cons_append, normalize_go_cons_fst]
    cases hE : (normalizeElemTr idx c).1 with
    | error e2 => rw [hE] at h0; simp [Except.isOk, Except.toBool] at h0
    | ok p =>
      rcases p with ⟨d, cid⟩
      rw [htail]

/-- Claim C1: a case element carrying a key outside the reserved set
(after the optional `id` is removed) makes the whole normalization — and
hence expansion — fail with the `ValidationError` message listing the
offending keys sorted and comma-joined, producing zero units, even when
all earlier elements are well-formed. -/
theorem claim_C1_unknown_keys_fail (settings : Option EvalSettings) (f : PyFunc)
    (pre : List Value) (d : PyDict) (suf : List Value)
    (hpre : ∀ j c, pre.get? j = Option.some c →
      ((normalizeElemTr j c).1).isOk = true)
    (hbad : (unknown_keys (dictRemove d "id")).isEmpty = false) :
    (normalize_cases (Value.list (pre ++ Value.dict d :: suf))).1 =
      Except.error ("Unknown case keys: " ++
        String.intercalate ", " (sortStrings (unknown_keys (dictRemove d "id")))) ∧
    expand settings f (Value.list (pre ++ Value.dict d :: suf)) =
      Except.error ("Unknown case keys: " ++
        String.intercalate ", " (sortStrings (unknown_keys (dictRemove d "id")))) ∧
    ∀ us, expand settings f (Value.list (pre ++ Value.dict d :: suf)) ≠ Except.ok us := by
  have hout : (normalize_go pre.length (Value.dict d :: suf)).1 =
      Except.error ("Unknown case keys: " ++
        String.intercalate ", " (sortStrings (unknown_keys (dictRemove d "id")))) := by
    rw [normalize_go_cons_fst, normalizeElemTr_error_of_unknown pre.length d hbad]
  have h1 : (normalize_go 0 (pre ++ Value.dict d :: suf)).1 =
      Except.error ("Unknown case keys: " ++
        String.intercalate ", " (sortStrings (unknown_keys (dictRemove d "id")))) := by
    refine normalize_go_error_of_prefix pre 0 _ _ ?_ ?_
    · intro j c hc; simpa [Nat.zero_add] using hpre j c hc
    · simpa [Nat.zero_add] using hout
  have hnorm : (normalize_cases (Value.list (pre ++ Value.dict d :: suf))).1 =
      Except.error ("Unknown case keys: " ++
        String.intercalate ", " (sortStrings (unknown_keys (dictRemove d "id")))) := by
    rcases hG : normalize_go 0 (pre ++ Value.dict d :: suf) with ⟨r, l'⟩
    rw [hG] at h1
    simp only at h1
    simp [normalize_cases, hG, h1]
  have hexp : expand settings f (Value.list (pre ++ Value.dict d :: suf)) =
      Except.error ("Unknown case keys: " ++
        String.intercalate ", " (sortStrings (unknown_keys (dictRemove d "id")))) := by
    simp [expand, apply_cases, hnorm]
  exact ⟨hnorm, hexp, fun us hc => by rw [hexp] at hc; exact Except.noConfusion hc⟩

/-- Claim C1, instantiated: a well-formed first case followed by a case
with the unknown keys `foo` and `bar` fails the whole expansion with the
sorted, comma-joined message, producing zero units. -/
theorem claim_C1_unknown_keys_fail_witness :
    expand Option.none
      { name := "f", cases := Option.none, context_by_signature := false, is_async := false }
      (Value.list [Value.dict [("input", Value.int 1)],
        Value.dict [("foo", Value.none), ("bar", Value.int 2)]]) =
      Except.error "Unknown case keys: bar, foo" := by
  have h := (claim_C1_unknown_keys_fail Option.none
    { name := "f", cases := Option.none, context_by_signature := false, is_async := false }
    [Value.dict [("input", Value.int 1)]]
    [("foo", Value.none), ("bar", Value.int 2)] []
    ?_ rfl).2.1
  · exact h
  · intro j c hc
    match j, hc with
    | 0, hc =>
      have : Value.dict [("input", Value.int 1)] = c := by
        simpa using hc
      rw [← this]
      rfl
    | n + 1, hc => simp at hc

theorem mapIdx_length (g : Nat → PyDict → EvalFunction) :
    ∀ (i : Nat) (cs : List PyDict), (mapIdx g i cs).length = cs.length := by
  intro i cs
  induction cs generalizing i with
  | nil => rfl
  | cons c cs ih => simp [mapIdx, ih]

theorem mapIdx_get? (g : Nat → PyDict → EvalFunction) :
    ∀ (cs : List PyDict) (i j : Nat),
      (mapIdx g i cs).get? j = (cs.get? j).map (fun c => g (i + j) c) := by
  intro cs
  induction cs with
  | nil => intro i j; simp [mapIdx]
  | cons c cs ih =>
    intro i j
    cases j with
    | zero => simp [mapIdx]
    | succ n =>
      have := ih (i + 1) n
      simp only [mapIdx, List.get?_cons_succ, this]
      have harith : i + 1 + n = i + (n + 1) := by omega
      rw [harith]

theorem normalize_go_ok_char :
    ∀ (l : List Value) (idx : Nat) (ds : List PyDict) (ids : List (Option String)),
      (normalize_go idx l).1 = Except.ok (ds, ids) →
      ds.length = l.length ∧ ids.length = l.length ∧
      ∀ j c, l.get? j = Option.some c →
        ∃ dj ij, ds.get? j = Option.some dj ∧ ids.get? j = Option.some ij ∧
          (normalizeElemTr (idx + j) c).1 = Except.ok (dj, ij) := by
  intro l
  induction l with
  | nil =>
    intro idx ds ids h
    rw [normalize_go_nil_fst] at h
    injection h with h
    injection h with h1 h2
    subst h1; subst h2
    exact ⟨rfl, rfl, fun j c hc => by simp at hc⟩
  | cons c cs ih =>
    intro idx ds ids h
    rw [normalize_go_cons_fst] at h
    cases hE : (normalizeElemTr idx c).1 with
    | error e => rw [hE] at h; exact Except.noConfusion h
    | ok p =>
      rcases p with ⟨d, cid⟩
      rw [hE] at h
      cases hG : (normalize_go (idx + 1) cs).1 with
      | error e => rw [hG] at h; exact Except.noConfusion h
      | ok q =>
        rcases q with ⟨ds', ids'⟩
        rw [hG] at h
        simp only at h
        injection h with h
        injection h with h1 h2
        subst h1; subst h2
        obtain ⟨hl1, hl2, hchar⟩ := ih (idx + 1) ds' ids' hG
        refine ⟨by simp [hl1], by simp [hl2], ?_⟩
        intro j c2 hc2
        cases j with
        | zero =>
          refine ⟨d, cid, rfl, rfl, ?_⟩
          have : c2 = c := by simpa using hc2.symm
          subst this
          simpa using hE
        | succ n =>
          have htail : cs.get? n = Option.some c2 := by simpa using hc2
          obtain ⟨dj, ij, h1, h2, h3⟩ := hchar n c2 htail
          refine ⟨dj, ij, by simpa using h1, by simpa using h2, ?_⟩
          have harith : idx + 1 + n = idx + (n + 1) := by omega
          rwa [harith] at h3

/-- The calling convention recorded for the synthesized wrappers: the
decorated settings' explicit `context_param` when available, else
signature inspection of the bare function. -/
def expand_has_context (settings : Option EvalSettings) (f : PyFunc) : Bool :=
  match settings with
  | Option.some s => s.context_param.isSome
  | Option.none => f.context_by_signature

/-- Claim C5: a valid case declaration with n cases expands to exactly n
units, in declaration order — the j-th unit is merged from the
normalization of the j-th declared case. -/
theorem claim_C5_count_and_order (settings : Option EvalSettings) (f : PyFunc)
    (l : List Value) (cb : CaseBlock)
    (h : (normalize_cases (Value.list l)).1 = Except.ok (Option.some cb)) :
    expand settings f (Value.list l) =
      Except.ok (mapIdx
        (fun i c => mergeCase settings f.name (expand_has_context settings f)
          f.is_async cb.case_ids i c) 0 cb.case_sets) ∧
    (mapIdx
      (fun i c => mergeCase settings f.name (expand_has_context settings f)
        f.is_async cb.case_ids i c) 0 cb.case_sets).length = l.length ∧
    ∀ j c, l.get? j = Option.some c →
      ∃ dj ij, (normalizeElemTr j c).1 = Except.ok (dj, ij) ∧
        cb.case_sets.get? j = Option.some dj ∧
        cb.case_ids.get? j = Option.some ij ∧
        (mapIdx
          (fun i c2 => mergeCase settings f.name (expand_has_context settings f)
            f.is_async cb.case_ids i c2) 0 cb.case_sets).get? j =
          Option.some (mergeCase settings f.name (expand_has_context settings f)
            f.is_async cb.case_ids j dj) := by
  have hblock : ∃ ds ids, (normalize_go 0 l).1 = Except.ok (ds, ids) ∧
      cb = ⟨ds, ids⟩ := by
    rcases hG : normalize_go 0 l with ⟨r, l'⟩
    cases r with
    | error e => simp [normalize_cases, hG] at h
    | ok q =>
      rcases q with ⟨ds, ids⟩
      refine ⟨ds, ids, rfl, ?_⟩
      simp [normalize_cases, hG] at h
      exact h.symm
  obtain ⟨ds, ids, hgo, hcb⟩ := hblock
  obtain ⟨hl1, hl2, hchar⟩ := normalize_go_ok_char l 0 ds ids hgo
  have hexp : expand settings f (Value.list l) =
      Except.ok (mapIdx
        (fun i c => mergeCase settings f.name (expand_has_context settings f)
          f.is_async cb.case_ids i c) 0 cb.case_sets) := by
    cases settings with
    | none =>
      simp [expand, apply_cases, h, generate_eval_functions, lookup_case_block,
        base_func_of, settings_of, expand_has_context]
    | some s =>
      simp [expand, apply_cases, h, generate_eval_functions, lookup_case_block,
        base_func_of, settings_of, expand_has_context]
  refine ⟨hexp, ?_, ?_⟩
  · rw [mapIdx_length]
    subst hcb
    exact hl1
  · intro j c hc
    obtain ⟨dj, ij, h1, h2, h3⟩ := hchar j c hc
    refine ⟨dj, ij, by simpa using h3, ?_, ?_, ?_⟩
    · subst hcb; exact h1
    · subst hcb; exact h2
    · rw [mapIdx_get?]
      subst hcb
      simp only [Nat.zero_add]
      rw [h1]
      rfl

/-- A bare function used to instantiate the expansion theorems. -/
def fC5 : PyFunc :=
  { name := "f", cases := Option.none, context_by_signature := false, is_async := false }

/-- The spec's end-to-end example declaration: one case with id "a", one
with cleared labels. -/
def lC5 : List Value :=
  [Value.dict [("id", Value.str "a"), ("input", Value.str "x")],
   Value.dict [("labels", Value.list []), ("input", Value.str "y")]]

/-- The normalized table of `lC5`. -/
def cbC5 : CaseBlock :=
  { case_sets := [[("input", Value.str "x")],
                  [("labels", Value.list []), ("input", Value.str "y")]],
    case_ids := [Option.some "a", Option.none] }

/-- Claim C5, instantiated: the two-case declaration expands to exactly
two units in declaration order. -/
theorem claim_C5_count_and_order_witness :
    expand Option.none fC5 (Value.list lC5) =
      Except.ok (mapIdx
        (fun i c => mergeCase Option.none fC5.name
          (expand_has_context Option.none fC5) fC5.is_async cbC5.case_ids i c)
        0 cbC5.case_sets) ∧
    (mapIdx
      (fun i c => mergeCase Option.none fC5.name
        (expand_has_context Option.none fC5) fC5.is_async cbC5.case_ids i c)
      0 cbC5.case_sets).length = lC5.length := by
  have h := claim_C5_count_and_order Option.none fC5 lC5 cbC5 rfl
  exact ⟨h.1, h.2.1⟩
